import Mathlib

/-!
Verification of the `week` package (ISO 8601 week dates, `week.go`).

The repository source provides the `Week` value type, its arithmetic
(`Add`, `Sub`), the serialization surfaces (`MarshalText`, `UnmarshalText`,
`MarshalJSON`, `UnmarshalJSON`, `Value`, `Scan`) and the Gregorian
conversions (`Time`, `FromTime`, `normalizeOrdinal`, `convertToISOWeekday`).
The helper functions it calls (`weeksInYear`, `checkYearAndWeek`,
`isLeapYear`, `encodeISOWeekDate`, `decodeISOWeekDate`) are part of the
repository but are not included under `src/`; those are modelled from the
specification, as indicated in their doc comments.

Conventions of the embedding:
* Go `int` values are modelled as `Int`.
* Go byte slices are modelled as `List Nat` of byte values.
* Go division/remainder (truncation toward zero) is `Int.tdiv`/`Int.tmod`;
  Lean's `/` and `%` on `Int` (Euclidean, which agrees with floor division
  for positive divisors) are used in the calendar ground model, where all
  divisors are positive.
* A Go method that can panic is modelled with an explicit `crashed` outcome.
* Loops are modelled with explicit fuel; `none`/`noFuel` marks fuel
  exhaustion, and the theorems show the fuel claimed by the specification
  suffices.
-/

deriving instance DecidableEq for Except

/-- Error kinds of the package (spec §7): `InvalidYear`, `InvalidWeek`,
`FormatError`, the "string literal expected" error of `UnmarshalJSON`, and
the "incompatible type" error of `Scan`.  Message wrapping
(`errors.Wrap`) decorates the message and keeps the cause; the embedding
keeps the cause as the error kind itself. -/
inductive WeekError where
  | invalidYear
  | invalidWeek
  | formatError
  | notStringLiteral
  | unsupportedSourceType
deriving DecidableEq, Repr

/-- The `Week` struct of `week.go`: a `(year, week)` pair of Go ints. -/
structure Week where
  year : Int
  week : Int
deriving DecidableEq, Repr

/-- Modelled from the spec: `isLeapYear` is called by `normalizeOrdinal`
(src/week.go:258,264) but its definition is not under `src/`; the spec
(§4.4, glossary) refers to proleptic-Gregorian leap years, "leap-year day
counts (366) used when applicable".  Standard Gregorian rule.  Divisibility
tests agree between Go's truncated remainder and `%` (Euclidean) since both
are zero exactly on multiples. -/
def isLeapYear (y : Int) : Bool :=
  y % 4 == 0 && (y % 100 != 0 || y % 400 == 0)

/-- Day count of a proleptic-Gregorian year (365, or 366 when leap). -/
def daysInYear (y : Int) : Int :=
  if isLeapYear y then 366 else 365

/-- Ground model of the proleptic-Gregorian calendar: days in all years
before year `y`, counted from year 0 (negative for negative `y`).  The
ceiling divisions count the leap years among them; `(y+3)/4 = ⌈y/4⌉` for
the Euclidean `/` with positive divisor. -/
def daysBeforeYear (y : Int) : Int :=
  365 * y + (y + 3) / 4 - (y + 99) / 100 + (y + 399) / 400

/-- Ground model of weekdays: the ISO weekday (Monday = 1 … Sunday = 7) of
day `d` (1-based ordinal) of year `y`, anchored so that January 1 of year 1
is a Monday (proleptic Gregorian).  This models the composition
`convertToISOWeekday(time.Date(y, 1, d, …).Weekday())` used by `Time`. -/
def isoWeekday (y d : Int) : Int :=
  (daysBeforeYear y + d + 4) % 7 + 1

/-- Modelled from the spec: `weeksInYear` is called throughout `week.go`
but its definition is not under `src/`.  Spec §4.2: "a year has 53 ISO
weeks iff January 1 of that year falls on a Thursday, or December 31 falls
on a Thursday"; weekdays are taken in the proleptic-Gregorian ground model.
(The spec also offers an arithmetic rendering of this rule; that rendering
is examined by claim C4.) -/
def weeksInYear (y : Int) : Int :=
  if isoWeekday y 1 = 4 ∨ isoWeekday y (daysInYear y) = 4 then 53 else 52

/-- The spec's arithmetic formula (§4.2):
`p(year) = (year + year/4 - year/100 + year/400) mod 7` with the source
language's truncated division and remainder. -/
def pFormula (y : Int) : Int :=
  (y + y.tdiv 4 - y.tdiv 100 + y.tdiv 400).tmod 7

/-- Modelled from the spec: `checkYearAndWeek`, called by `New`
(src/week.go:22), is not under `src/`.  Spec §4.1: `year` must lie in
0–9999 inclusive (else `InvalidYear`); `week` must be ≥ 1 and
≤ `weeksInYear(year)` (else `InvalidWeek`). -/
def checkYearAndWeek (year week : Int) : Option WeekError :=
  if year < 0 ∨ year > 9999 then some .invalidYear
  else if week < 1 ∨ week > weeksInYear year then some .invalidWeek
  else none

/-- `New` (src/week.go:20-28): validates and constructs a `Week`; on error
Go returns the zero `Week{}` together with the error, modelled as
`Except`. -/
def New (year week : Int) : Except WeekError Week :=
  match checkYearAndWeek year week with
  | some e => .error e
  | none => .ok ⟨year, week⟩

/-- The validity invariant of the data model (spec §3). -/
def ValidWeek (w : Week) : Prop :=
  0 ≤ w.year ∧ w.year ≤ 9999 ∧ 1 ≤ w.week ∧ w.week ≤ weeksInYear w.year

instance (w : Week) : Decidable (ValidWeek w) := by
  unfold ValidWeek
  infer_instance

/-- Weeks before year `y` in the ISO week calendar: the sum of
`weeksInYear` over the years `0 ≤ y' < y` (nonnegative years). -/
def cumWeeksNat : Nat → Int
  | 0 => 0
  | n + 1 => cumWeeksNat n + weeksInYear n

/-- Sum of `weeksInYear` over the years `-n ≤ y' < 0`. -/
def cumWeeksNeg : Nat → Int
  | 0 => 0
  | n + 1 => cumWeeksNeg n + weeksInYear (-(n + 1 : Nat))

/-- Weeks strictly before year `y`, signed (negative when `y < 0`), so
that `cumWeeks (y+1) = cumWeeks y + weeksInYear y` for every `y`. -/
def cumWeeks (y : Int) : Int :=
  if 0 ≤ y then cumWeeksNat y.toNat else -cumWeeksNeg (-y).toNat

/-- Position of a week date on the absolute week axis: week `(y, w)` is
the `cumWeeks y + w`-th ISO week (week `(0, 1)` is week number 1). -/
def weekIndex (w : Week) : Int :=
  cumWeeks w.year + w.week

/-- Chronological order on week dates (year-major, then week). -/
def WeekBefore (a b : Week) : Prop :=
  a.year < b.year ∨ (a.year = b.year ∧ a.week < b.week)

instance (a b : Week) : Decidable (WeekBefore a b) := by
  unfold WeekBefore
  infer_instance

/-- Modelled from the spec: `encodeISOWeekDate`, called by `MarshalText`
etc., is not under `src/`.  Spec §4.5: validate (§4.1), then produce the
canonical 8 bytes `YYYY-Www` with zero-padded decimal digits. -/
def encodeISOWeekDate (year week : Int) : Except WeekError (List Nat) :=
  match checkYearAndWeek year week with
  | some e => .error e
  | none => .ok [48 + ((year / 1000) % 10).toNat, 48 + ((year / 100) % 10).toNat,
                 48 + ((year / 10) % 10).toNat, 48 + (year % 10).toNat,
                 45, 87,
                 48 + ((week / 10) % 10).toNat, 48 + (week % 10).toNat]

/-- ASCII decimal digit test for a byte. -/
def isDigitByte (c : Nat) : Bool :=
  48 ≤ c && c ≤ 57

/-- Numeric value of an ASCII digit byte. -/
def digitVal (c : Nat) : Int :=
  (c : Int) - 48

/-- Modelled from the spec: `decodeISOWeekDate`, called by the unmarshal
surfaces and `Scan`, is not under `src/`.  Spec §4.5: fail with the format
error if the length is not 8, the byte at offset 4 is not `-`, the byte at
offset 5 is not `W`, or the year/week substrings are not pure ASCII
digits; then validate the decoded pair with §4.1. -/
def decodeISOWeekDate (data : List Nat) : Except WeekError (Int × Int) :=
  match data with
  | [y1, y2, y3, y4, s1, s2, w1, w2] =>
    if s1 = 45 ∧ s2 = 87 then
      if isDigitByte y1 ∧ isDigitByte y2 ∧ isDigitByte y3 ∧ isDigitByte y4 ∧
         isDigitByte w1 ∧ isDigitByte w2 then
        let year := 1000 * digitVal y1 + 100 * digitVal y2 + 10 * digitVal y3 + digitVal y4
        let week := 10 * digitVal w1 + digitVal w2
        match checkYearAndWeek year week with
        | some e => .error e
        | none => .ok (year, week)
      else .error .formatError
    else .error .formatError
  | _ => .error .formatError

/-- `MarshalText` (src/week.go:186-194): encode the receiver; the wrap
only decorates the message. -/
def Week.marshalText (w : Week) : Except WeekError (List Nat) :=
  encodeISOWeekDate w.year w.week

/-- `UnmarshalText` (src/week.go:173-183): decode, and only on success
assign the receiver's fields.  The pair is (returned error, receiver state
after the call). -/
def Week.unmarshalText (w : Week) (data : List Nat) : Option WeekError × Week :=
  match decodeISOWeekDate data with
  | .error e => (some e, w)
  | .ok (year, week) => (none, { year := year, week := week })

/-- Outcome of a Go method call that may panic. -/
inductive GoOut where
  | crashed
  | failed (e : WeekError)
  | succeeded
deriving DecidableEq, Repr

/-- `UnmarshalJSON` (src/week.go:139-153).  `data[0]` panics on an empty
slice; when the quote test passes with `len(data) = 1` the slice
expression `data[1:0]` panics as well.  Otherwise the quotes are stripped,
the token decoded, and the receiver assigned only on success. -/
def Week.unmarshalJSON (w : Week) (data : List Nat) : GoOut × Week :=
  match data with
  | [] => (.crashed, w)
  | c :: rest =>
    if c ≠ 34 ∨ (c :: rest).getLast? ≠ some 34 then (.failed .notStringLiteral, w)
    else if rest = [] then (.crashed, w)
    else
      match decodeISOWeekDate (rest.take (rest.length - 1)) with
      | .error e => (.failed e, w)
      | .ok (year, week) => (.succeeded, { year := year, week := week })

/-- The dynamic argument of `Scan` (src/week.go:208-230): a string, a byte
slice, or any other value. -/
inductive ScanSrc where
  | strVal (data : List Nat)
  | bytesVal (data : List Nat)
  | otherVal
deriving DecidableEq, Repr

/-- `Scan` (src/week.go:208-230): decode strings and byte slices, reject
other types, and assign the receiver only on success. -/
def Week.scan (w : Week) (src : ScanSrc) : Option WeekError × Week :=
  match src with
  | .otherVal => (some .unsupportedSourceType, w)
  | .strVal data | .bytesVal data =>
    match decodeISOWeekDate data with
    | .error e => (some e, w)
    | .ok (year, week) => (none, { year := year, week := week })

/-- The year-stepping loop of `add` (src/week.go:112-128), with explicit
fuel.  State: the sign, the current year, the running week offset, and
`maxWeeks` (the week count of the current year). -/
def addLoop : Nat → Int → Int → Int → Int → Option (Int × Int)
  | 0, _, _, _, _ => none
  | n + 1, sign, year, week, maxWeeks =>
    if week > maxWeeks ∨ week < 0 then
      let year' := year + sign
      let week' := if sign = 1 then week - maxWeeks else week
      let maxWeeks' := weeksInYear year'
      let week'' := if sign = -1 then week' + maxWeeks' else week'
      addLoop n sign year' week'' maxWeeks'
    else some (year, week)

/-- `add` (src/week.go:101-136), hence `Add` (src/week.go:53-55): step the
year in the direction of the sign until the offset is in range, normalize
a final week 0 to the last week of the previous year, then validate via
`New`.  The fuel `|w.week + delta| + 2` is shown sufficient for every
validated receiver. -/
def Week.add (w : Week) (weeksToAdd : Int) : Option (Except WeekError Week) :=
  let sign : Int := if weeksToAdd < 0 then -1 else 1
  match addLoop ((w.week + weeksToAdd).natAbs + 2) sign w.year (w.week + weeksToAdd)
      (weeksInYear w.year) with
  | none => none
  | some (year, week) =>
    if week = 0 then some (New (year + sign) (weeksInYear (year + sign)))
    else some (New year week)

/-- Result of the `Sub` walk: a value, the "infinite loop guard" panic
(src/week.go:85), or fuel exhaustion. -/
inductive SubRes where
  | ok (diff : Int)
  | guardTripped
  | noFuel
deriving DecidableEq, Repr

/-- The year walk of `Sub` (src/week.go:83-96), with explicit fuel: panic
if `yearA > yearB`, step a year accumulating `weeksInYear`, and finish
with the week difference once the years meet. -/
def subLoop : Nat → Int → Int → Int → Int → Int → SubRes
  | 0, _, _, _, _, _ => .noFuel
  | n + 1, yearA, yearB, weekA, weekB, diff =>
    if yearA > yearB then .guardTripped
    else if yearA ≠ yearB then subLoop n (yearA + 1) yearB weekA weekB (diff + weeksInYear yearA)
    else .ok (diff + (weekB - weekA))

/-- `Sub` (src/week.go:58-99).  Go computes the direction as
`int(math.Sqrt(float64(d*d)))/d`; for `|d| ≤ 9999` (all validated years,
and far below 2^26) the square and its square root are exact in float64,
so this equals `|d|/d`, which the embedding uses.  The walk is given fuel
`|yearB - yearA| + 1`, the iteration count claimed by the spec. -/
def Week.sub (w u : Week) : SubRes :=
  let yearDiff := u.year - w.year
  let direction : Int := if yearDiff = 0 then 1 else (yearDiff.natAbs : Int) / yearDiff
  let smaller := if direction = -1 then u else w
  let bigger := if direction = -1 then w else u
  match subLoop ((bigger.year - smaller.year).natAbs + 1) smaller.year bigger.year
      smaller.week bigger.week 0 with
  | .ok diff => .ok (diff * direction)
  | r => r

/-- `convertToISOWeekday` (src/week.go:275-280): Go weekdays are
Sunday = 0 … Saturday = 6; remap Sunday to 7. -/
def convertToISOWeekday (weekday : Int) : Int :=
  if weekday = 0 then 7 else weekday

/-- `normalizeOrdinal` (src/week.go:255-271): bring an ordinal day into
the range of its year, moving one year backward or forward if needed. -/
def normalizeOrdinal (year ordinal : Int) : Int × Int :=
  if ordinal < 1 then
    (year - 1, (if isLeapYear (year - 1) then 366 else 365) + ordinal)
  else if ordinal > (if isLeapYear year then 366 else 365) then
    (year + 1, ordinal - (if isLeapYear year then 366 else 365))
  else (year, ordinal)

/-- `Time` (src/week.go:239-250): the calendar date (year, ordinal day) of
the given Go weekday inside week `w`, via the ISO ordinal-date method.
`isoWeekday w.year 4` models `convertToISOWeekday(jan4th.Weekday())`, and
the result models the `time.Time` produced by
`time.Date(year, 1, ordinal, 0, 0, 0, 0, time.UTC)`. -/
def Week.time (w : Week) (weekday : Int) : Int × Int :=
  let isoWd := convertToISOWeekday weekday
  let jan4wd := isoWeekday w.year 4
  let correction := jan4wd + 3
  let ordinal := w.week * 7 + isoWd - correction
  normalizeOrdinal w.year ordinal

/-- Modelled from the spec: the host calendar's ISO-week accessor
(`time.Time.ISOWeek`), the external collaborator of `FromTime` (§4.4
"derived directly from the calendar system's own ISO-week accessor").
ISO 8601: a date belongs to the week of its Thursday; the week number is
that Thursday's 0-based day-of-year divided by 7, plus 1.  Input is a
calendar date as a (year, ordinal day) pair with the ordinal in range. -/
def isoWeekFromDate (y d : Int) : Int × Int :=
  let wd := isoWeekday y d
  let dThu := d + (4 - wd)
  if dThu < 1 then (y - 1, (dThu + daysInYear (y - 1) - 1) / 7 + 1)
  else if dThu > daysInYear y then (y + 1, (dThu - daysInYear y - 1) / 7 + 1)
  else (y, (dThu - 1) / 7 + 1)

/-- `FromTime` (src/week.go:233-236): read `t.ISOWeek()` and build the
`Week` without validation. -/
def FromTime (t : Int × Int) : Week :=
  ⟨(isoWeekFromDate t.1 t.2).1, (isoWeekFromDate t.1 t.2).2⟩

example : weeksInYear 2015 = 53 ∧ weeksInYear 2016 = 52 := by decide
example : New 2021 52 = .ok ⟨2021, 52⟩ := by decide
example : decodeISOWeekDate ("2021-W52".toList.map Char.toNat) = .ok (2021, 52) := by decide

/-! Helper lemmas about the calendar model. -/

theorem weeksInYear_cases (y : Int) : weeksInYear y = 52 ∨ weeksInYear y = 53 := by
  unfold weeksInYear
  split <;> simp

theorem cumWeeks_succ (y : Int) : cumWeeks (y + 1) = cumWeeks y + weeksInYear y := by
  rcases le_or_lt 0 y with h | h
  · obtain ⟨n, rfl⟩ := Int.eq_ofNat_of_zero_le h
    have h1 : ((n : Int) + 1) = ((n + 1 : Nat) : Int) := by push_cast; ring
    rw [h1]
    simp only [cumWeeks, Int.toNat_ofNat, Int.le_def]
    rw [if_pos (by positivity), if_pos (by positivity)]
    simp [cumWeeksNat]
  · obtain ⟨m, rfl⟩ : ∃ m : Nat, y = -((m + 1 : Nat) : Int) := ⟨(-y).toNat - 1, by omega⟩
    rcases Nat.eq_zero_or_pos m with rfl | hpos
    · norm_num [cumWeeks, cumWeeksNeg, cumWeeksNat]
    · have h1 : (-((m + 1 : Nat) : Int)) + 1 = -(m : Nat) := by push_cast; ring
      rw [h1]
      have hm0 : ¬ (0 : Int) ≤ -((m : Nat) : Int) ∨ m = 0 := by omega
      simp only [cumWeeks]
      rw [if_neg (by omega), if_neg (by omega)]
      have h2 : (-(-((m : Nat) : Int))).toNat = m := by omega
      have h3 : (-(-((m + 1 : Nat) : Int))).toNat = m + 1 := by omega
      rw [h2, h3]
      simp only [cumWeeksNeg]
      push_cast
      ring

theorem cumWeeks_mono {a b : Int} (h : a ≤ b) : cumWeeks a ≤ cumWeeks b := by
  obtain ⟨n, rfl⟩ : ∃ n : Nat, b = a + n := ⟨(b - a).toNat, by omega⟩
  clear h
  induction n with
  | zero => simp
  | succ k ih =>
    have h1 : a + ((k + 1 : Nat) : Int) = (a + k) + 1 := by push_cast; ring
    rw [h1, cumWeeks_succ]
    have := weeksInYear_cases (a + k)
    omega

theorem weekIndex_lt_of_before {a b : Week} (ha : ValidWeek a) (hb : ValidWeek b)
    (h : WeekBefore a b) : weekIndex a < weekIndex b := by
  rcases h with h | ⟨hy, hw⟩
  · have h1 : cumWeeks (a.year + 1) = cumWeeks a.year + weeksInYear a.year := cumWeeks_succ a.year
    have h2 : cumWeeks (a.year + 1) ≤ cumWeeks b.year := cumWeeks_mono (by omega)
    rcases ha with ⟨_, _, _, ha4⟩
    rcases hb with ⟨_, _, hb3, _⟩
    unfold weekIndex
    omega
  · unfold weekIndex
    rw [hy]
    omega

theorem checkYearAndWeek_eq_none {year week : Int} (h0 : 0 ≤ year) (h1 : year ≤ 9999)
    (h2 : 1 ≤ week) (h3 : week ≤ weeksInYear year) : checkYearAndWeek year week = none := by
  unfold checkYearAndWeek
  rw [if_neg (by omega), if_neg (by omega)]

theorem decode_of_encode {year week : Int} (h0 : 0 ≤ year) (h1 : year ≤ 9999)
    (h2 : 1 ≤ week) (h3 : week ≤ weeksInYear year) :
    ∃ bytes : List Nat, encodeISOWeekDate year week = .ok bytes ∧ bytes.length = 8 ∧
      decodeISOWeekDate bytes = .ok (year, week) := by
  have h4 : week ≤ 53 := by
    have := weeksInYear_cases year
    omega
  refine ⟨[48 + ((year / 1000) % 10).toNat, 48 + ((year / 100) % 10).toNat,
           48 + ((year / 10) % 10).toNat, 48 + (year % 10).toNat, 45, 87,
           48 + ((week / 10) % 10).toNat, 48 + (week % 10).toNat], ?_, rfl, ?_⟩
  · unfold encodeISOWeekDate
    rw [checkYearAndWeek_eq_none h0 h1 h2 h3]
  · have hd1 : isDigitByte (48 + ((year / 1000) % 10).toNat) = true := by
      simp only [isDigitByte, Bool.and_eq_true, decide_eq_true_eq]
      omega
    have hd2 : isDigitByte (48 + ((year / 100) % 10).toNat) = true := by
      simp only [isDigitByte, Bool.and_eq_true, decide_eq_true_eq]
      omega
    have hd3 : isDigitByte (48 + ((year / 10) % 10).toNat) = true := by
      simp only [isDigitByte, Bool.and_eq_true, decide_eq_true_eq]
      omega
    have hd4 : isDigitByte (48 + (year % 10).toNat) = true := by
      simp only [isDigitByte, Bool.and_eq_true, decide_eq_true_eq]
      omega
    have hd5 : isDigitByte (48 + ((week / 10) % 10).toNat) = true := by
      simp only [isDigitByte, Bool.and_eq_true, decide_eq_true_eq]
      omega
    have hd6 : isDigitByte (48 + (week % 10).toNat) = true := by
      simp only [isDigitByte, Bool.and_eq_true, decide_eq_true_eq]
      omega
    have hyear : 1000 * (((48 + ((year / 1000) % 10).toNat : Nat) : Int) - 48)
        + 100 * (((48 + ((year / 100) % 10).toNat : Nat) : Int) - 48)
        + 10 * (((48 + ((year / 10) % 10).toNat : Nat) : Int) - 48)
        + (((48 + (year % 10).toNat : Nat) : Int) - 48) = year := by
      push_cast
      omega
    have hweek : 10 * (((48 + ((week / 10) % 10).toNat : Nat) : Int) - 48)
        + (((48 + (week % 10).toNat : Nat) : Int) - 48) = week := by
      push_cast
      omega
    simp only [decodeISOWeekDate, digitVal, hd1, hd2, hd3, hd4, hd5, hd6, and_self,
      if_true]
    rw [hyear, hweek, checkYearAndWeek_eq_none h0 h1 h2 h3]

theorem weekIndex_inj {a b : Week} (ha : ValidWeek a) (hb : ValidWeek b)
    (h : weekIndex a = weekIndex b) : a = b := by
  by_contra hne
  have htri : WeekBefore a b ∨ WeekBefore b a := by
    unfold WeekBefore
    have : ¬ (a.year = b.year ∧ a.week = b.week) := by
      intro ⟨h1, h2⟩
      exact hne (by cases a; cases b; simp_all)
    omega
  rcases htri with h' | h'
  · exact absurd h (by have := weekIndex_lt_of_before ha hb h'; omega)
  · exact absurd h (by have := weekIndex_lt_of_before hb ha h'; omega)

theorem isLeapYear_iff (y : Int) :
    isLeapYear y = true ↔ (y % 4 = 0 ∧ (y % 100 ≠ 0 ∨ y % 400 = 0)) := by
  simp [isLeapYear, Bool.and_eq_true, Bool.or_eq_true, beq_iff_eq, bne_iff_ne]

theorem longYear_arith (y : Int) :
    ((365 * y + (y + 3) / 4 - (y + 99) / 100 + (y + 399) / 400 + 1 + 4) % 7 + 1 = 4
     ∨ (365 * y + (y + 3) / 4 - (y + 99) / 100 + (y + 399) / 400
         + (if y % 4 = 0 ∧ (y % 100 ≠ 0 ∨ y % 400 = 0) then (366 : Int) else 365) + 4) % 7 + 1
        = 4)
    ↔ ((y + y / 4 - y / 100 + y / 400) % 7 = 4
       ∨ ((y + y / 4 - y / 100 + y / 400) % 7 = 5
           ∧ (y % 4 = 0 ∧ (y % 100 ≠ 0 ∨ y % 400 = 0)))) := by
  by_cases h4 : y % 4 = 0
  · by_cases h100 : y % 100 = 0
    · by_cases h400 : y % 400 = 0
      · rw [if_pos ⟨h4, Or.inr h400⟩]
        have e4 : (y + 3) / 4 = y / 4 := by omega
        have e100 : (y + 99) / 100 = y / 100 := by omega
        have e400 : (y + 399) / 400 = y / 400 := by omega
        rw [e4, e100, e400]
        omega
      · rw [if_neg (by omega)]
        have e4 : (y + 3) / 4 = y / 4 := by omega
        have e100 : (y + 99) / 100 = y / 100 := by omega
        have e400 : (y + 399) / 400 = y / 400 + 1 := by omega
        rw [e4, e100, e400]
        omega
    · have h400 : ¬ y % 400 = 0 := by omega
      rw [if_pos ⟨h4, Or.inl h100⟩]
      have e4 : (y + 3) / 4 = y / 4 := by omega
      have e100 : (y + 99) / 100 = y / 100 + 1 := by omega
      have e400 : (y + 399) / 400 = y / 400 + 1 := by omega
      rw [e4, e100, e400]
      omega
  · have h100 : ¬ y % 100 = 0 := by omega
    have h400 : ¬ y % 400 = 0 := by omega
    rw [if_neg (by omega)]
    have e4 : (y + 3) / 4 = y / 4 + 1 := by omega
    have e100 : (y + 99) / 100 = y / 100 + 1 := by omega
    have e400 : (y + 399) / 400 = y / 400 + 1 := by omega
    rw [e4, e100, e400]
    omega

theorem weeksInYear_eq_53_iff (y : Int) (h0 : 0 ≤ y) :
    weeksInYear y = 53 ↔ (pFormula y = 4 ∨ (pFormula y = 5 ∧ isLeapYear y = true)) := by
  have hpc : (0 : Int) ≤ y + y.tdiv 4 - y.tdiv 100 + y.tdiv 400 := by
    rw [Int.tdiv_eq_ediv h0 (by norm_num), Int.tdiv_eq_ediv h0 (by norm_num),
      Int.tdiv_eq_ediv h0 (by norm_num)]
    omega
  have hp : pFormula y = (y + y / 4 - y / 100 + y / 400) % 7 := by
    unfold pFormula
    rw [Int.tmod_eq_emod hpc (by norm_num), Int.tdiv_eq_ediv h0 (by norm_num),
      Int.tdiv_eq_ediv h0 (by norm_num), Int.tdiv_eq_ediv h0 (by norm_num)]
  have hw : weeksInYear y = 53 ↔ (isoWeekday y 1 = 4 ∨ isoWeekday y (daysInYear y) = 4) := by
    unfold weeksInYear
    split <;> simp_all
  have hd : daysInYear y = if y % 4 = 0 ∧ (y % 100 ≠ 0 ∨ y % 400 = 0) then (366 : Int) else 365 := by
    have hiff := isLeapYear_iff y
    unfold daysInYear
    by_cases hc : y % 4 = 0 ∧ (y % 100 ≠ 0 ∨ y % 400 = 0)
    · rw [if_pos (hiff.mpr hc), if_pos hc]
    · rw [if_neg (fun hh => hc (hiff.mp hh)), if_neg hc]
  rw [hw, hp, hd, isLeapYear_iff]
  unfold isoWeekday daysBeforeYear
  exact longYear_arith y

theorem subLoop_ok (n : Nat) (yearA yearB weekA weekB diff : Int)
    (hle : yearA ≤ yearB) (hfuel : yearB - yearA < n) :
    subLoop n yearA yearB weekA weekB diff
      = .ok (diff + (cumWeeks yearB - cumWeeks yearA) + (weekB - weekA)) := by
  induction n generalizing yearA diff with
  | zero => omega
  | succ k ih =>
    unfold subLoop
    rw [if_neg (by omega)]
    by_cases heq : yearA = yearB
    · rw [if_neg (by omega)]
      subst heq
      simp only [SubRes.ok.injEq]
      ring
    · rw [if_pos (by omega)]
      rw [ih (yearA + 1) (diff + weeksInYear yearA) (by omega) (by omega)]
      simp only [SubRes.ok.injEq]
      have := cumWeeks_succ yearA
      omega

theorem sub_eq (w u : Week) : w.sub u = .ok (weekIndex u - weekIndex w) := by
  simp only [Week.sub, weekIndex]
  by_cases hy : u.year - w.year = 0
  · rw [if_pos hy, if_neg (by norm_num), if_neg (by norm_num)]
    rw [subLoop_ok _ _ _ _ _ _ (by omega) (by omega)]
    simp only [SubRes.ok.injEq]
    have h1 : cumWeeks u.year = cumWeeks w.year := by rw [show u.year = w.year by omega]
    omega
  · rw [if_neg hy]
    by_cases hpos : 0 < u.year - w.year
    · have hdir : (((u.year - w.year).natAbs : Int)) / (u.year - w.year) = 1 := by
        rw [Int.natAbs_of_nonneg (by omega), Int.ediv_self (by omega)]
      rw [hdir, if_neg (by norm_num), if_neg (by norm_num)]
      rw [subLoop_ok _ _ _ _ _ _ (by omega) (by omega)]
      simp only [SubRes.ok.injEq]
      omega
    · have hdir : (((u.year - w.year).natAbs : Int)) / (u.year - w.year) = -1 := by
        have h1 : (((u.year - w.year).natAbs : Int)) = -(u.year - w.year) := by omega
        rw [h1, show -(u.year - w.year) = (u.year - w.year) * -1 by ring,
          Int.mul_ediv_cancel_left _ (by omega)]
      rw [hdir, if_pos rfl, if_pos rfl]
      rw [subLoop_ok _ _ _ _ _ _ (by omega) (by omega)]
      simp only [SubRes.ok.injEq]
      omega

theorem week_trichotomy (a b : Week) : WeekBefore a b ∨ a = b ∨ WeekBefore b a := by
  cases a with
  | mk ya wa =>
    cases b with
    | mk yb wb =>
      simp only [WeekBefore, Week.mk.injEq]
      omega

theorem addLoop_forward (n : Nat) : ∀ year week : Int, 1 ≤ week → week ≤ (n : Int) →
    ∃ y k : Int, addLoop n 1 year week (weeksInYear year) = some (y, k) ∧
      cumWeeks y + k = cumWeeks year + week ∧ 1 ≤ k ∧ k ≤ weeksInYear y := by
  induction n with
  | zero =>
    intro year week h1 h2
    omega
  | succ m ih =>
    intro year week h1 h2
    have hwc := weeksInYear_cases year
    by_cases hcond : week > weeksInYear year ∨ week < 0
    · unfold addLoop
      rw [if_pos hcond]
      simp only [show ((1 : Int) = 1) = True from by simp,
        show ((1 : Int) = -1) = False from by norm_num, if_true, if_false]
      obtain ⟨y, k, heq, hsum, hk1, hk2⟩ :=
        ih (year + 1) (week - weeksInYear year) (by omega) (by push_cast at h2 ⊢; omega)
      refine ⟨y, k, heq, ?_, hk1, hk2⟩
      have := cumWeeks_succ year
      omega
    · unfold addLoop
      rw [if_neg hcond]
      exact ⟨year, week, rfl, by ring, h1, by omega⟩

theorem addLoop_backward (n : Nat) : ∀ year week : Int, week ≤ weeksInYear year →
    -week + 52 ≤ 52 * (n : Int) → 1 ≤ n →
    ∃ y k : Int, addLoop n (-1) year week (weeksInYear year) = some (y, k) ∧
      cumWeeks y + k = cumWeeks year + week ∧ 0 ≤ k ∧ k ≤ weeksInYear y := by
  induction n with
  | zero =>
    intro year week _ _ h
    omega
  | succ m ih =>
    intro year week hub hfuel _
    have hwc := weeksInYear_cases year
    by_cases hcond : week > weeksInYear year ∨ week < 0
    · have hneg : week < 0 := by omega
      have hwc1 := weeksInYear_cases (year + -1)
      unfold addLoop
      rw [if_pos hcond]
      simp only [show ((-1 : Int) = 1) = False from by norm_num,
        show ((-1 : Int) = -1) = True from by simp, if_true, if_false]
      have hm : 1 ≤ m := by push_cast at hfuel; omega
      obtain ⟨y, k, heq, hsum, hk1, hk2⟩ :=
        ih (year + -1) (week + weeksInYear (year + -1)) (by omega)
          (by push_cast at hfuel ⊢; omega) hm
      refine ⟨y, k, heq, ?_, hk1, hk2⟩
      have hstep : cumWeeks ((year + -1) + 1) = cumWeeks (year + -1) + weeksInYear (year + -1) :=
        cumWeeks_succ _
      have hyy : (year + -1) + 1 = year := by ring
      rw [hyy] at hstep
      omega
    · unfold addLoop
      rw [if_neg hcond]
      exact ⟨year, week, rfl, by ring, by omega, by omega⟩

theorem add_normalized (w : Week) (delta : Int) (hw : ValidWeek w) :
    ∃ y k : Int, w.add delta = some (New y k) ∧
      cumWeeks y + k = weekIndex w + delta ∧ 1 ≤ k ∧ k ≤ weeksInYear y := by
  obtain ⟨hw0, hw1, hw2, hw3⟩ := hw
  simp only [Week.add, weekIndex]
  by_cases hsgn : delta < 0
  · rw [if_pos hsgn]
    obtain ⟨y, k, heq, hsum, hk1, hk2⟩ :=
      addLoop_backward ((w.week + delta).natAbs + 2) w.year (w.week + delta)
        (by omega) (by omega) (by omega)
    split
    · next hnone =>
      rw [heq] at hnone
      simp at hnone
    · next year week hsome =>
      rw [heq] at hsome
      obtain ⟨rfl, rfl⟩ : year = y ∧ week = k := by
        injection hsome with h
        injection h with h1 h2
        exact ⟨h1.symm, h2.symm⟩
      by_cases hk0 : week = 0
      · subst hk0
        rw [if_pos rfl]
        have hwc := weeksInYear_cases (year + -1)
        have hstep : cumWeeks ((year + -1) + 1)
            = cumWeeks (year + -1) + weeksInYear (year + -1) := cumWeeks_succ _
        have hyy : (year + -1) + 1 = year := by ring
        rw [hyy] at hstep
        exact ⟨year + -1, weeksInYear (year + -1), rfl, by omega, by omega, le_refl _⟩
      · rw [if_neg hk0]
        exact ⟨year, week, rfl, by omega, by omega, hk2⟩
  · rw [if_neg hsgn]
    obtain ⟨y, k, heq, hsum, hk1, hk2⟩ :=
      addLoop_forward ((w.week + delta).natAbs + 2) w.year (w.week + delta)
        (by omega) (by omega)
    split
    · next hnone =>
      rw [heq] at hnone
      simp at hnone
    · next year week hsome =>
      rw [heq] at hsome
      obtain ⟨rfl, rfl⟩ : year = y ∧ week = k := by
        injection hsome with h
        injection h with h1 h2
        exact ⟨h1.symm, h2.symm⟩
      rw [if_neg (by omega)]
      exact ⟨year, week, rfl, by omega, by omega, hk2⟩

theorem valid_weekIndex_range (r : Week) (hr : ValidWeek r) :
    1 ≤ weekIndex r ∧ weekIndex r ≤ cumWeeks 10000 := by
  obtain ⟨h0, h1, h2, h3⟩ := hr
  have hm0 : cumWeeks 0 ≤ cumWeeks r.year := cumWeeks_mono h0
  have hstep : cumWeeks (r.year + 1) = cumWeeks r.year + weeksInYear r.year :=
    cumWeeks_succ r.year
  have hm1 : cumWeeks (r.year + 1) ≤ cumWeeks 10000 := cumWeeks_mono (by omega)
  have hc0 : cumWeeks 0 = 0 := by decide
  unfold weekIndex
  omega

theorem daysInYear_cases (y : Int) : daysInYear y = 365 ∨ daysInYear y = 366 := by
  unfold daysInYear
  split <;> simp

theorem daysBeforeYear_succ (y : Int) :
    daysBeforeYear (y + 1) = daysBeforeYear y + daysInYear y := by
  have hiff := isLeapYear_iff y
  unfold daysBeforeYear daysInYear
  by_cases hc : y % 4 = 0 ∧ (y % 100 ≠ 0 ∨ y % 400 = 0)
  · rw [if_pos (hiff.mpr hc)]
    obtain ⟨h4, h100⟩ := hc
    rcases h100 with h100 | h400
    · have e1 : (y + 1 + 3) / 4 = (y + 3) / 4 + 1 := by omega
      have e2 : (y + 1 + 99) / 100 = (y + 99) / 100 := by omega
      have e3 : (y + 1 + 399) / 400 = (y + 399) / 400 := by omega
      omega
    · have h100' : y % 100 = 0 := by omega
      have e1 : (y + 1 + 3) / 4 = (y + 3) / 4 + 1 := by omega
      have e2 : (y + 1 + 99) / 100 = (y + 99) / 100 + 1 := by omega
      have e3 : (y + 1 + 399) / 400 = (y + 399) / 400 + 1 := by omega
      omega
  · rw [if_neg (fun hh => hc (hiff.mp hh))]
    by_cases h4 : y % 4 = 0
    · have h100 : y % 100 = 0 := by omega
      have h400 : ¬ y % 400 = 0 := by omega
      have e1 : (y + 1 + 3) / 4 = (y + 3) / 4 + 1 := by omega
      have e2 : (y + 1 + 99) / 100 = (y + 99) / 100 + 1 := by omega
      have e3 : (y + 1 + 399) / 400 = (y + 399) / 400 := by omega
      omega
    · have e1 : (y + 1 + 3) / 4 = (y + 3) / 4 := by omega
      have e2 : (y + 1 + 99) / 100 = (y + 99) / 100 := by omega
      have e3 : (y + 1 + 399) / 400 = (y + 399) / 400 := by omega
      omega

theorem normalizeOrdinal_cases (y o : Int) :
    (o < 1 ∧ normalizeOrdinal y o = (y - 1, daysInYear (y - 1) + o)) ∨
    (1 ≤ o ∧ o ≤ daysInYear y ∧ normalizeOrdinal y o = (y, o)) ∨
    (daysInYear y < o ∧ normalizeOrdinal y o = (y + 1, o - daysInYear y)) := by
  unfold normalizeOrdinal
  by_cases hlt : o < 1
  · left
    rw [if_pos hlt]
    exact ⟨hlt, rfl⟩
  · have hE : (if isLeapYear y = true then (366 : Int) else 365) = daysInYear y := rfl
    by_cases hgt : o > daysInYear y
    · right; right
      rw [if_neg hlt, hE, if_pos hgt]
      exact ⟨hgt, rfl⟩
    · right; left
      rw [if_neg hlt, hE, if_neg hgt]
      exact ⟨by omega, by omega, rfl⟩

set_option maxHeartbeats 1600000 in
theorem timeCore (y w k : Int) (hw1 : 1 ≤ w)
    (hw2 : w ≤ weeksInYear y) (hk1 : 1 ≤ k) (hk7 : k ≤ 7) :
    isoWeekFromDate (normalizeOrdinal y (w * 7 + k - (isoWeekday y 4 + 3))).1
      (normalizeOrdinal y (w * 7 + k - (isoWeekday y 4 + 3))).2 = (y, w) := by
  have hs1 : daysBeforeYear (y + 1) = daysBeforeYear y + daysInYear y := daysBeforeYear_succ y
  have hs0 : daysBeforeYear y = daysBeforeYear (y - 1) + daysInYear (y - 1) := by
    have h := daysBeforeYear_succ (y - 1)
    rw [show y - 1 + 1 = y from by ring] at h
    exact h
  have hdiyY := daysInYear_cases y
  have hdiy0 := daysInYear_cases (y - 1)
  have hdiy1 := daysInYear_cases (y + 1)
  have hw2' : w ≤ 52 ∨ (w ≤ 53 ∧
      ((daysBeforeYear y + 1 + 4) % 7 + 1 = 4 ∨
       (daysBeforeYear y + daysInYear y + 4) % 7 + 1 = 4)) := by
    unfold weeksInYear isoWeekday at hw2
    split at hw2
    · next hcond => exact Or.inr ⟨hw2, hcond⟩
    · next hcond => exact Or.inl hw2
  clear hw2
  rcases normalizeOrdinal_cases y (w * 7 + k - (isoWeekday y 4 + 3)) with
    ⟨hc, heq⟩ | ⟨hc1, hc2, heq⟩ | ⟨hc, heq⟩ <;> rw [heq] <;> clear heq
  · unfold isoWeekday at hc ⊢
    simp only [isoWeekFromDate, isoWeekday]
    split_ifs with h1 h2 <;> rw [Prod.mk.injEq] <;> omega
  · unfold isoWeekday at hc1 hc2 ⊢
    simp only [isoWeekFromDate, isoWeekday]
    split_ifs with h1 h2 <;> rw [Prod.mk.injEq] <;> omega
  · unfold isoWeekday at hc ⊢
    simp only [isoWeekFromDate, isoWeekday]
    rw [show y + 1 - 1 = y from by ring]
    split_ifs with h1 h2 <;> rw [Prod.mk.injEq] <;> omega

set_option maxHeartbeats 1600000 in
theorem isoWeekFromDate_week_range (y d : Int) (h1 : 1 ≤ d) (h2 : d ≤ daysInYear y) :
    ∀ yF wF : Int, isoWeekFromDate y d = (yF, wF) → 1 ≤ wF ∧ wF ≤ weeksInYear yF := by
  intro yF wF heq
  have hs1 : daysBeforeYear (y + 1) = daysBeforeYear y + daysInYear y := daysBeforeYear_succ y
  have hs0 : daysBeforeYear y = daysBeforeYear (y - 1) + daysInYear (y - 1) := by
    have h := daysBeforeYear_succ (y - 1)
    rw [show y - 1 + 1 = y from by ring] at h
    exact h
  have hdiyY := daysInYear_cases y
  have hdiy0 := daysInYear_cases (y - 1)
  have hdiy1 := daysInYear_cases (y + 1)
  simp only [isoWeekFromDate, isoWeekday] at heq
  split_ifs at heq with hA hB <;>
    obtain ⟨rfl, rfl⟩ : _ ∧ _ := by
        injection heq with hy hw
        exact ⟨hy.symm, hw.symm⟩
  all_goals unfold weeksInYear isoWeekday
  all_goals split_ifs with hL <;> omega

theorem checkYearAndWeek_none_bounds {year week : Int}
    (h : checkYearAndWeek year week = none) :
    0 ≤ year ∧ year ≤ 9999 ∧ 1 ≤ week ∧ week ≤ weeksInYear year := by
  unfold checkYearAndWeek at h
  split_ifs at h <;> simp_all

theorem decode_ok_valid {data : List Nat} {yy ww : Int}
    (h : decodeISOWeekDate data = .ok (yy, ww)) : ValidWeek ⟨yy, ww⟩ := by
  unfold decodeISOWeekDate at h
  split at h
  · split_ifs at h
    · dsimp only at h
      split at h
      · simp at h
      · next hchk =>
        simp only [Except.ok.injEq, Prod.mk.injEq] at h
        obtain ⟨rfl, rfl⟩ := h
        obtain ⟨b1, b2, b3, b4⟩ := checkYearAndWeek_none_bounds hchk
        exact ⟨b1, b2, b3, b4⟩
  · simp at h

/-! Claim theorems. -/

/-- C2: for every valid week `w` and every integer `delta`, `Add`
terminates (the fuel of the embedding suffices) and returns exactly the
week whose position on the absolute week axis is `delta` past `w` — with
week 0 normalized to the last week of the previous year — when that
position lies inside the supported range of years 0–9999, and fails with
the range (`InvalidYear`) error otherwise; in particular
`Add(New(2015, 53), 1) = (2016, 1)` and
`Add(New(2016, 1), -1) = (2015, 53)`. -/
theorem add_exact :
    (∀ (w : Week) (delta : Int), ValidWeek w →
      (∃ res, w.add delta = some res) ∧
      (∀ r : Week, w.add delta = some (.ok r) ↔
          (ValidWeek r ∧ weekIndex r = weekIndex w + delta)) ∧
      (w.add delta = some (.error .invalidYear) ↔
          (weekIndex w + delta < 1 ∨ cumWeeks 10000 < weekIndex w + delta))) ∧
    (Week.mk 2015 53).add 1 = some (.ok ⟨2016, 1⟩) ∧
    (Week.mk 2016 1).add (-1) = some (.ok ⟨2015, 53⟩) := by
  refine ⟨?_, by decide, by decide⟩
  intro w delta hw
  obtain ⟨y, k, heq, hsum, hk1, hk2⟩ := add_normalized w delta hw
  by_cases hyr : 0 ≤ y ∧ y ≤ 9999
  · have hvalid : ValidWeek ⟨y, k⟩ := ⟨hyr.1, hyr.2, hk1, hk2⟩
    have hnew : New y k = .ok ⟨y, k⟩ := by
      unfold New
      rw [checkYearAndWeek_eq_none hyr.1 hyr.2 hk1 hk2]
    rw [hnew] at heq
    have hrange := valid_weekIndex_range ⟨y, k⟩ hvalid
    have hidx : weekIndex ⟨y, k⟩ = weekIndex w + delta := by
      unfold weekIndex
      simpa using hsum
    refine ⟨⟨.ok ⟨y, k⟩, heq⟩, ?_, ?_⟩
    · intro r
      constructor
      · intro h
        rw [heq] at h
        simp only [Option.some.injEq, Except.ok.injEq] at h
        rw [← h]
        exact ⟨hvalid, hidx⟩
      · intro ⟨hr, hri⟩
        have hre : r = ⟨y, k⟩ := weekIndex_inj hr hvalid (by rw [hri, hidx])
        rw [hre, heq]
    · rw [heq]
      constructor
      · intro h
        exact absurd h (by simp)
      · intro h
        omega
  · have hnew : New y k = .error .invalidYear := by
      unfold New checkYearAndWeek
      rw [if_pos (by omega)]
    rw [hnew] at heq
    have hTout : weekIndex w + delta < 1 ∨ cumWeeks 10000 < weekIndex w + delta := by
      rcases (by omega : y < 0 ∨ 9999 < y) with h | h
      · left
        have h2 : cumWeeks (y + 1) = cumWeeks y + weeksInYear y := cumWeeks_succ y
        have h3 : cumWeeks (y + 1) ≤ cumWeeks 0 := cumWeeks_mono (by omega)
        have hc0 : cumWeeks 0 = 0 := by decide
        omega
      · right
        have h3 : cumWeeks 10000 ≤ cumWeeks y := cumWeeks_mono (by omega)
        omega
    refine ⟨⟨.error .invalidYear, heq⟩, ?_, ?_⟩
    · intro r
      rw [heq]
      constructor
      · intro h
        exact absurd h (by simp)
      · intro ⟨hr, hri⟩
        exfalso
        have := valid_weekIndex_range r hr
        omega
    · rw [heq]
      exact ⟨fun _ => hTout, fun _ => rfl⟩

/-- C2 witness: the characterization applied to the valid week (2015, 53)
with delta 1. -/
theorem add_exact_witness :
    (Week.mk 2015 53).add 1 = some (.ok ⟨2016, 1⟩) ↔
      (ValidWeek ⟨2016, 1⟩ ∧ weekIndex ⟨2016, 1⟩ = weekIndex ⟨2015, 53⟩ + 1) :=
  (add_exact.1 ⟨2015, 53⟩ 1 (by decide)).2.1 ⟨2016, 1⟩

/-- C3: for all valid weeks `a` and `b`, `a.Sub(b)` returns the signed
number of weeks from `a` to `b` — the difference of their positions on
the absolute week axis — so it is positive exactly when `b` is
chronologically after `a`, negative exactly when `b` is before `a`, and
zero exactly when they are equal; in particular
`Sub(New(2015,1), New(2015,1)) = 0` and `Sub(New(2015,1), New(2016,1))
= weeksInYear(2015)`. -/
theorem sub_signed_difference :
    (∀ a b : Week, ValidWeek a → ValidWeek b →
      a.sub b = .ok (weekIndex b - weekIndex a) ∧
      (0 < weekIndex b - weekIndex a ↔ WeekBefore a b) ∧
      (weekIndex b - weekIndex a < 0 ↔ WeekBefore b a) ∧
      (weekIndex b - weekIndex a = 0 ↔ a = b)) ∧
    (Week.mk 2015 1).sub ⟨2015, 1⟩ = .ok 0 ∧
    (Week.mk 2015 1).sub ⟨2016, 1⟩ = .ok (weeksInYear 2015) := by
  refine ⟨?_, by decide, by decide⟩
  intro a b ha hb
  have hab : WeekBefore a b → 0 < weekIndex b - weekIndex a := fun h => by
    have := weekIndex_lt_of_before ha hb h
    omega
  have hba : WeekBefore b a → weekIndex b - weekIndex a < 0 := fun h => by
    have := weekIndex_lt_of_before hb ha h
    omega
  refine ⟨sub_eq a b, ⟨fun h => ?_, hab⟩, ⟨fun h => ?_, hba⟩, ⟨fun h => ?_, fun h => by rw [h]; ring⟩⟩
  · rcases week_trichotomy a b with t | t | t
    · exact t
    · rw [t] at h
      omega
    · have := hba t
      omega
  · rcases week_trichotomy a b with t | t | t
    · have := hab t
      omega
    · rw [t] at h
      omega
    · exact t
  · exact weekIndex_inj ha hb (by omega)

/-- C3 witness: the characterization at the valid pair
((2015, 1), (2016, 1)). -/
theorem sub_signed_difference_witness :
    (Week.mk 2015 1).sub ⟨2016, 1⟩
        = .ok (weekIndex ⟨2016, 1⟩ - weekIndex ⟨2015, 1⟩) ∧
      (0 < weekIndex ⟨2016, 1⟩ - weekIndex ⟨2015, 1⟩ ↔ WeekBefore ⟨2015, 1⟩ ⟨2016, 1⟩) :=
  ⟨(sub_signed_difference.1 ⟨2015, 1⟩ ⟨2016, 1⟩ (by decide) (by decide)).1,
   (sub_signed_difference.1 ⟨2015, 1⟩ ⟨2016, 1⟩ (by decide) (by decide)).2.1⟩

/-- C9: for validated weeks the `Sub` walk — which the embedding gives
exactly `|a.year − b.year| + 1` units of fuel, one per loop iteration —
terminates with a value: it neither exhausts that fuel nor reaches the
"infinite loop guard" panic, because the direction swap makes the walk
start at the chronologically earlier year. -/
theorem sub_walk_terminates (a b : Week) (_ha : ValidWeek a) (_hb : ValidWeek b) :
    (∃ d : Int, a.sub b = SubRes.ok d) ∧
    a.sub b ≠ SubRes.guardTripped ∧ a.sub b ≠ SubRes.noFuel := by
  refine ⟨⟨weekIndex b - weekIndex a, sub_eq a b⟩, ?_, ?_⟩ <;> rw [sub_eq] <;> simp

/-- C9 witness: termination at the valid pair ((2015, 53), (2020, 1)). -/
theorem sub_walk_terminates_witness :
    (∃ d : Int, (Week.mk 2015 53).sub ⟨2020, 1⟩ = SubRes.ok d) ∧
    (Week.mk 2015 53).sub ⟨2020, 1⟩ ≠ SubRes.guardTripped ∧
    (Week.mk 2015 53).sub ⟨2020, 1⟩ ≠ SubRes.noFuel :=
  sub_walk_terminates ⟨2015, 53⟩ ⟨2020, 1⟩ (by decide) (by decide)

/-- C1: for every valid pair `(year, week)` (year in 0–9999, week in
1–weeksInYear(year)), `MarshalText` produces the canonical 8-byte
`YYYY-Www` token, and `UnmarshalText` on that token succeeds and stores
exactly the same pair in the receiver, whatever the receiver held
before. -/
theorem mText_uText_roundtrip (year week : Int) (h : ValidWeek ⟨year, week⟩) :
    ∃ bytes : List Nat, (Week.mk year week).marshalText = .ok bytes ∧ bytes.length = 8 ∧
      ∀ u : Week, u.unmarshalText bytes = (none, ⟨year, week⟩) := by
  obtain ⟨h0, h1, h2, h3⟩ := h
  obtain ⟨bytes, henc, hlen, hdec⟩ := decode_of_encode h0 h1 h2 h3
  refine ⟨bytes, henc, hlen, fun u => ?_⟩
  unfold Week.unmarshalText
  rw [hdec]

/-- C1 witness: the round trip evaluated at the valid pair (2021, 52). -/
theorem mText_uText_roundtrip_witness :
    ∃ bytes : List Nat, (Week.mk 2021 52).marshalText = .ok bytes ∧ bytes.length = 8 ∧
      ∀ u : Week, u.unmarshalText bytes = (none, ⟨2021, 52⟩) :=
  mText_uText_roundtrip 2021 52 (by decide)

/-- C4 counterexample: year 2004 is a leap year whose January 1 falls on
a Thursday, so it has 53 ISO weeks, yet the claim's arithmetic condition
`p(year) == 4 || p(year) == 3 && isLeapYear(year)` is false at 2004
(`p(2004) = 5`): the claimed equivalence fails. -/
theorem weeksInYear_claim_counterexample :
    weeksInYear 2004 = 53 ∧ isoWeekday 2004 1 = 4 ∧ isLeapYear 2004 = true ∧
    ¬ (pFormula 2004 = 4 ∨ (pFormula 2004 = 3 ∧ isLeapYear 2004 = true)) := by
  decide

/-- C4 amended: for every year in the supported range 0–9999,
`weeksInYear` returns 53 exactly when January 1 of that year falls on a
Thursday or December 31 falls on a Thursday — equivalently, exactly when
`p(year) == 4 || p(year) == 5 && isLeapYear(year)` (the claim wrote
`p(year) == 3` for the second disjunct) — and 52 otherwise; in
particular `weeksInYear(2015) = 53`, `weeksInYear(2016) = 52`,
`weeksInYear(2019) = 52` and `weeksInYear(2020) = 53`. -/
theorem weeksInYear_longYear_rule :
    (∀ y : Int, 0 ≤ y → y ≤ 9999 →
      ((weeksInYear y = 53 ↔ (isoWeekday y 1 = 4 ∨ isoWeekday y (daysInYear y) = 4)) ∧
       (weeksInYear y = 53 ↔ (pFormula y = 4 ∨ (pFormula y = 5 ∧ isLeapYear y = true))) ∧
       (weeksInYear y = 53 ∨ weeksInYear y = 52))) ∧
    weeksInYear 2015 = 53 ∧ weeksInYear 2016 = 52 ∧
    weeksInYear 2019 = 52 ∧ weeksInYear 2020 = 53 := by
  refine ⟨?_, by decide, by decide, by decide, by decide⟩
  intro y h0 h1
  refine ⟨?_, weeksInYear_eq_53_iff y h0, (weeksInYear_cases y).symm⟩
  unfold weeksInYear
  split <;> simp_all

/-- C4 witness: the amended rule evaluated at year 2020. -/
theorem weeksInYear_longYear_rule_witness :
    weeksInYear 2020 = 53 ↔ (pFormula 2020 = 4 ∨ (pFormula 2020 = 5 ∧ isLeapYear 2020 = true)) :=
  ((weeksInYear_longYear_rule.1 2020 (by decide) (by decide)).2).1

/-- C5: `New(year, week)` succeeds exactly when `0 ≤ year ≤ 9999` and
`1 ≤ week ≤ weeksInYear(year)`; `New(-1, 1)` and `New(10000, 1)` fail
with the year error, `New(2021, 53)` fails with the week error (2021 has
52 weeks), and `New(2021, 52)` succeeds. -/
theorem new_validates_exactly :
    (∀ year week : Int,
      (∃ r, New year week = .ok r) ↔
        (0 ≤ year ∧ year ≤ 9999 ∧ 1 ≤ week ∧ week ≤ weeksInYear year)) ∧
    New (-1) 1 = .error .invalidYear ∧
    New 10000 1 = .error .invalidYear ∧
    New 2021 53 = .error .invalidWeek ∧
    New 2021 52 = .ok ⟨2021, 52⟩ := by
  refine ⟨?_, by decide, by decide, by decide, by decide⟩
  intro year week
  unfold New checkYearAndWeek
  split_ifs with hy hw <;> simp <;> omega

/-- C6: for every valid week `d` and every Go weekday argument (0–6,
covering Monday=1 … Sunday=7 after the ISO remapping), converting `d` to
a calendar date at that weekday with `Time` and converting back with
`FromTime` yields exactly the original year and week. -/
theorem time_fromTime_roundtrip :
    ∀ d : Week, ValidWeek d → ∀ wd : Int, 0 ≤ wd → wd ≤ 6 →
      FromTime (d.time wd) = d := by
  intro d hv wd h0 h6
  obtain ⟨y, w⟩ := d
  have hw1 : 1 ≤ w := hv.2.2.1
  have hw2 : w ≤ weeksInYear y := hv.2.2.2
  have hk : 1 ≤ convertToISOWeekday wd ∧ convertToISOWeekday wd ≤ 7 := by
    unfold convertToISOWeekday
    split <;> omega
  have hcore := timeCore y w (convertToISOWeekday wd) hw1 hw2 hk.1 hk.2
  simp only [Week.time, FromTime]
  rw [Week.mk.injEq]
  exact ⟨congrArg Prod.fst hcore, congrArg Prod.snd hcore⟩

/-- C6 witness: the calendar round trip at the valid week (2015, 53) and
the Sunday weekday argument. -/
theorem time_fromTime_roundtrip_witness :
    FromTime ((Week.mk 2015 53).time 0) = ⟨2015, 53⟩ :=
  time_fromTime_roundtrip ⟨2015, 53⟩ (by decide) 0 (by decide) (by decide)

/-- C7 counterexample: `FromTime` builds the `Week` from `t.ISOWeek()`
without validation, and January 1 of year 0 belongs to ISO week 52 of
year −1, so the materialized Week has a year outside the supported range
0–9999, violating the claimed invariant. -/
theorem fromTime_no_validation_counterexample :
    FromTime (0, 1) = ⟨-1, 52⟩ ∧ ¬ ValidWeek (FromTime (0, 1)) ∧
      (FromTime (0, 1)).year < 0 := by
  decide

/-- C7 amended: every `Week` materialized through `New`, text/JSON
unmarshaling, or `Scan` passes validation, hence satisfies
`1 ≤ week ≤ weeksInYear(year)` with `0 ≤ year ≤ 9999`; `FromTime` is the
exception: it validates nothing, and while its result always satisfies
the week-range half of the invariant (`1 ≤ week ≤ weeksInYear(year)`),
its year is whatever ISO year the calendar date belongs to, which can
fall outside 0–9999. -/
theorem materialized_weeks_validated :
    (∀ (year week : Int) (r : Week), New year week = .ok r → ValidWeek r) ∧
    (∀ (w : Week) (data : List Nat),
      (w.unmarshalText data).1 = none → ValidWeek (w.unmarshalText data).2) ∧
    (∀ (w : Week) (data : List Nat),
      (w.unmarshalJSON data).1 = .succeeded → ValidWeek (w.unmarshalJSON data).2) ∧
    (∀ (w : Week) (src : ScanSrc),
      (w.scan src).1 = none → ValidWeek (w.scan src).2) ∧
    (∀ y d : Int, 1 ≤ d → d ≤ daysInYear y →
      1 ≤ (FromTime (y, d)).week ∧
      (FromTime (y, d)).week ≤ weeksInYear (FromTime (y, d)).year) := by
  refine ⟨?_, ?_, ?_, ?_, ?_⟩
  · intro year week r h
    unfold New at h
    split at h
    · simp at h
    · next hchk =>
      simp only [Except.ok.injEq] at h
      rw [← h]
      exact checkYearAndWeek_none_bounds hchk
  · intro w data h
    simp only [Week.unmarshalText] at h ⊢
    cases hdec : decodeISOWeekDate data with
    | error e =>
      rw [hdec] at h
      simp at h
    | ok p =>
      obtain ⟨a, b⟩ := p
      exact decode_ok_valid hdec
  · intro w data h
    cases data with
    | nil =>
      simp [Week.unmarshalJSON] at h
    | cons c rest =>
      simp only [Week.unmarshalJSON] at h ⊢
      split_ifs at h ⊢ with h1 h2
      cases hdec : decodeISOWeekDate (rest.take (rest.length - 1)) with
        | error e =>
          rw [hdec] at h
          simp at h
        | ok p =>
          obtain ⟨a, b⟩ := p
          exact decode_ok_valid hdec
  · intro w src h
    cases src with
    | otherVal => simp [Week.scan] at h
    | strVal data =>
      simp only [Week.scan] at h ⊢
      cases hdec : decodeISOWeekDate data with
      | error e =>
        rw [hdec] at h
        simp at h
      | ok p =>
        obtain ⟨a, b⟩ := p
        exact decode_ok_valid hdec
    | bytesVal data =>
      simp only [Week.scan] at h ⊢
      cases hdec : decodeISOWeekDate data with
      | error e =>
        rw [hdec] at h
        simp at h
      | ok p =>
        obtain ⟨a, b⟩ := p
        exact decode_ok_valid hdec
  · intro y d h1 h2
    exact isoWeekFromDate_week_range y d h1 h2 (isoWeekFromDate y d).1 (isoWeekFromDate y d).2 rfl

/-- C7 witness: the validated surfaces at (2021, 52), and the FromTime
week-range guarantee at the calendar date (2020, day 1). -/
theorem materialized_weeks_validated_witness :
    ValidWeek ⟨2021, 52⟩ ∧
    (1 ≤ (FromTime (2020, 1)).week ∧
      (FromTime (2020, 1)).week ≤ weeksInYear (FromTime (2020, 1)).year) :=
  ⟨materialized_weeks_validated.1 2021 52 ⟨2021, 52⟩ (by decide),
   materialized_weeks_validated.2.2.2.2 2020 1 (by decide) (by decide)⟩

/-- C8: evaluation of the serialization surfaces at the inputs named by
the claim.  The decoder behaves as specified on well-formed and malformed
tokens, but `UnmarshalJSON` crashes (Go: index out of range, then slice
bounds out of range) on the empty input and on the one-byte input `"`,
instead of returning a recoverable error — the failing inputs of the
claim. -/
theorem unmarshalJSON_crash_and_decode_cases :
    (Week.mk 2021 52).unmarshalJSON [] = (.crashed, ⟨2021, 52⟩) ∧
    (Week.mk 2021 52).unmarshalJSON [34] = (.crashed, ⟨2021, 52⟩) ∧
    decodeISOWeekDate ("2021-W52".toList.map Char.toNat) = .ok (2021, 52) ∧
    decodeISOWeekDate ("2021W52".toList.map Char.toNat) = .error .formatError ∧
    decodeISOWeekDate ("2021-W99".toList.map Char.toNat) = .error .invalidWeek ∧
    (Week.mk 2021 52).unmarshalJSON ("\"2021-W52\"".toList.map Char.toNat) =
      (.succeeded, ⟨2021, 52⟩) ∧
    ((Week.mk 0 0).unmarshalText [] = (some .formatError, ⟨0, 0⟩)) ∧
    ((Week.mk 0 0).scan (.strVal []) = (some .formatError, ⟨0, 0⟩)) ∧
    ((Week.mk 0 0).scan .otherVal = (some .unsupportedSourceType, ⟨0, 0⟩)) := by
  decide

/-- C10: whenever `UnmarshalJSON`, `UnmarshalText` or `Scan` returns an
error (and also when `UnmarshalJSON` panics before assignment), the
receiver keeps the year and week it held before the call, because the
receiver fields are assigned only after decoding succeeds. -/
theorem unmarshal_error_leaves_receiver (w : Week) (data : List Nat) (src : ScanSrc) :
    ((w.unmarshalJSON data).1 ≠ .succeeded → (w.unmarshalJSON data).2 = w) ∧
    (∀ e, (w.unmarshalText data).1 = some e → (w.unmarshalText data).2 = w) ∧
    (∀ e, (w.scan src).1 = some e → (w.scan src).2 = w) := by
  refine ⟨?_, ?_, ?_⟩
  · cases data with
    | nil => simp [Week.unmarshalJSON]
    | cons c rest =>
      simp only [Week.unmarshalJSON]
      split_ifs with h1 h2
      · simp
      · simp
      · cases hdec : decodeISOWeekDate (rest.take (rest.length - 1)) with
        | error e => simp [hdec]
        | ok p =>
          obtain ⟨a, b⟩ := p
          simp [hdec]
  · unfold Week.unmarshalText
    cases hdec : decodeISOWeekDate data with
    | error e => simp [hdec]
    | ok p =>
      obtain ⟨a, b⟩ := p
      simp [hdec]
  · unfold Week.scan
    cases src with
    | otherVal => simp
    | strVal data =>
      cases hdec : decodeISOWeekDate data with
      | error e => simp [hdec]
      | ok p =>
        obtain ⟨a, b⟩ := p
        simp [hdec]
    | bytesVal data =>
      cases hdec : decodeISOWeekDate data with
      | error e => simp [hdec]
      | ok p =>
        obtain ⟨a, b⟩ := p
        simp [hdec]

/-- C10 witness: the three surfaces at concrete failing inputs leave the
receiver (2020, 1) unchanged. -/
theorem unmarshal_error_leaves_receiver_witness :
    ((Week.mk 2020 1).unmarshalJSON ("bad".toList.map Char.toNat)).2 = ⟨2020, 1⟩ ∧
    ((Week.mk 2020 1).unmarshalText ("bad".toList.map Char.toNat)).2 = ⟨2020, 1⟩ ∧
    ((Week.mk 2020 1).scan .otherVal).2 = ⟨2020, 1⟩ := by
  refine ⟨?_, ?_, ?_⟩
  · exact (unmarshal_error_leaves_receiver ⟨2020, 1⟩ ("bad".toList.map Char.toNat)
      .otherVal).1 (by decide)
  · exact (unmarshal_error_leaves_receiver ⟨2020, 1⟩ ("bad".toList.map Char.toNat)
      .otherVal).2.1 .formatError (by decide)
  · exact (unmarshal_error_leaves_receiver ⟨2020, 1⟩ ("bad".toList.map Char.toNat)
      .otherVal).2.2 .unsupportedSourceType (by decide)
